import Mathlib

/-!
Shallow embedding of the ozes-parser crate.

Source layout:
  src/lexer/token.rs  -- `TokenType`, `Token`, the keyword table and the
                         discriminant-only `PartialEq` for `TokenType`
  src/lexer/mod.rs    -- `Lexer` and `Lexer::next_token`
  src/parser/mod.rs   -- `Command`, `Parser` and the recursive-descent parser
  src/parser/parse_error.rs -- `ParseError`

Modelling conventions: bytes are `Nat` (no arithmetic is ever performed on a
byte, only classification and comparison, so no wrap-around can arise);
`Bytes` buffers are `List Nat`; `usize` is `Nat` bounded by `2 ^ 64 - 1`
exactly where the source can overflow (`str::parse::<usize>`); fallible Rust
code returns `Except`.  The two `while` loops of the source (`skip_until` and
`parse_commands`) are embedded with an explicit fuel argument that is proved
sufficient (`Lexer.skip_until_fuel_congr`, `Parser.parse_commands_fuel_congr`),
so every definition is executable and the loop equations of the source are
recovered as theorems (`Lexer.skip_until_eq`, `Parser.parse_commands_eq`).
-/

/-- Byte list of a Lean string literal; used to write concrete test buffers
the way the Rust tests write `b"..."` literals (all inputs used are ASCII). -/
def strBytes (s : String) : List Nat := s.toList.map Char.toNat

/-- Embeds `u8::is_ascii_whitespace` (space, tab, newline, form feed,
carriage return). -/
def is_ascii_whitespace (c : Nat) : Bool :=
  c == 32 || c == 9 || c == 10 || c == 12 || c == 13

/-- Embeds `u8::is_ascii_digit`. -/
def is_ascii_digit (c : Nat) : Bool := 48 ≤ c && c ≤ 57

/-- Embeds `u8::is_ascii_alphanumeric`. -/
def is_ascii_alphanumeric (c : Nat) : Bool :=
  (97 ≤ c && c ≤ 122) || (65 ≤ c && c ≤ 90) || (48 ≤ c && c ≤ 57)

/-- Byte pattern `(b'a'..=b'z') | (b'A'..=b'Z') | b'_'` guarding the
identifier arm of `Lexer::next_token`. -/
def is_ident_start (c : Nat) : Bool :=
  (97 ≤ c && c ≤ 122) || (65 ≤ c && c ≤ 90) || c == 95

/-- The closure `|c| c.is_ascii_alphanumeric() || c == &b'_' || c == &b'.'`
passed to `skip_until` by the identifier arm of `Lexer::next_token`. -/
def is_ident_char (c : Nat) : Bool :=
  is_ascii_alphanumeric c || c == 95 || c == 46

/-- Embeds `u8::to_ascii_lowercase`. -/
def to_ascii_lowercase (c : Nat) : Nat :=
  if 65 ≤ c ∧ c ≤ 90 then c + 32 else c

/-- Embeds the `TokenType` enum of src/lexer/token.rs. -/
inductive TokenType where
  | Ok
  | Eof
  | With
  | Name
  | Group
  | Illegal
  | Message
  | Publisher
  | Subscribe
  | Semicolon
  | Error
  | Len (n : Nat)
  | Binary
  deriving DecidableEq

/-- Discriminant of a `TokenType` value, standing in for
`core::mem::discriminant`. -/
def TokenType.tag : TokenType → Nat
  | .Ok => 0
  | .Eof => 1
  | .With => 2
  | .Name => 3
  | .Group => 4
  | .Illegal => 5
  | .Message => 6
  | .Publisher => 7
  | .Subscribe => 8
  | .Semicolon => 9
  | .Error => 10
  | .Len _ => 11
  | .Binary => 12

/-- Embeds `impl PartialEq for TokenType` of src/lexer/token.rs: it compares
`core::mem::discriminant` only, so the number carried by `Len` is ignored.
This is the sole equality on `TokenType` in the crate; both the parser and the
derived `PartialEq` of `Token` (hence the tests) go through it. -/
def TokenType.peq (a b : TokenType) : Bool := a.tag == b.tag

/-- Embeds `impl From for TokenType` (the keyword table): lowercase the
matched bytes and look them up; unmatched text is `Name`. -/
def TokenType.from_bytes (input : List Nat) : TokenType :=
  let lower := input.map to_ascii_lowercase
  if lower = strBytes "with" then .With
  else if lower = strBytes "group" then .Group
  else if lower = strBytes "publisher" then .Publisher
  else if lower = strBytes "subscribe" then .Subscribe
  else if lower = strBytes "message" then .Message
  else if lower = strBytes "ok" then .Ok
  else if lower = strBytes "error" then .Error
  else .Name

/-- Renders a byte buffer as text; stands in for `String::from_utf8_lossy`
(identical on the ASCII payloads the crate manipulates). -/
def bytesToString (b : List Nat) : String := String.mk (b.map Char.ofNat)

/-- Embeds `impl Display for TokenType`. -/
def TokenType.display : TokenType → String
  | .With => "with"
  | .Group => "group"
  | .Publisher => "publisher"
  | .Subscribe => "subscribe"
  | .Message => "message"
  | .Ok => "ok"
  | .Name => "name"
  | .Eof => "eof"
  | .Semicolon => ";"
  | .Illegal => "illegal"
  | .Binary => "binary"
  | .Error => "error"
  | .Len n => "len " ++ Nat.repr n

/-- Debug rendering of a `TokenType` (the `{:?}` format used by
`expected_token_in`). -/
def TokenType.debugStr : TokenType → String
  | .Ok => "Ok"
  | .Eof => "Eof"
  | .With => "With"
  | .Name => "Name"
  | .Group => "Group"
  | .Illegal => "Illegal"
  | .Message => "Message"
  | .Publisher => "Publisher"
  | .Subscribe => "Subscribe"
  | .Semicolon => "Semicolon"
  | .Error => "Error"
  | .Len n => "Len(" ++ Nat.repr n ++ ")"
  | .Binary => "Binary"

/-- Debug rendering of a token-type list (the `{:?}` format used by
`expected_token_in`). -/
def debugList (l : List TokenType) : String :=
  "[" ++ String.intercalate ", " (l.map TokenType.debugStr) ++ "]"

/-- Embeds the `Token` struct of src/lexer/token.rs. -/
structure Token where
  token_type : TokenType
  value : Option (List Nat)
  deriving DecidableEq

/-- Embeds `Token::new`. -/
def Token.new (token_type : TokenType) (value : Option (List Nat)) : Token :=
  ⟨token_type, value⟩

/-- Embeds the derived `PartialEq` of `Token`: field-wise comparison, which
for `token_type` goes through the discriminant-only `TokenType` equality. -/
def Token.peq (a b : Token) : Bool :=
  TokenType.peq a.token_type b.token_type && a.value == b.value

/-- Embeds `impl Display for Token`. -/
def Token.display (t : Token) : String :=
  "[" ++ t.token_type.display ++ ": \x27" ++
    (match t.value with
     | some result => bytesToString result
     | none => "empty value") ++ "\x27]"

/-- Embeds the `Lexer` struct of src/lexer/mod.rs: input buffer plus cursor. -/
structure Lexer where
  input : List Nat
  idx : Nat
  deriving DecidableEq

/-- Embeds `Lexer::new`. -/
def Lexer.new (input : List Nat) : Lexer := ⟨input, 0⟩

/-- Embeds `Lexer::current_char`: `self.input.get(self.idx).unwrap_or(&0u8)`. -/
def Lexer.current_char (l : Lexer) : Nat := l.input.getD l.idx 0

/-- Embeds `Lexer::next_char`: `self.input.get(self.idx + 1).unwrap_or(&0u8)`. -/
def Lexer.next_char (l : Lexer) : Nat := l.input.getD (l.idx + 1) 0

/-- Embeds `Lexer::is_eof`: the current char is the NUL sentinel. -/
def Lexer.is_eof (l : Lexer) : Bool := l.current_char == 0

/-- Embeds `Lexer::consume`: advance the cursor by one. -/
def Lexer.consume (l : Lexer) : Lexer := { l with idx := l.idx + 1 }

/-- Fuelled unrolling of the `while until(current) && !is_eof` loop of
`Lexer::skip_until`.  `Lexer.skip_until` instantiates the fuel with
`input.length - idx`, which is proved sufficient below
(`Lexer.skip_until_eq` recovers the loop equation). -/
def Lexer.skip_until_fuel (p : Nat → Bool) : Nat → Lexer → Lexer
  | 0, l => l
  | fuel + 1, l =>
    if p l.current_char && !l.is_eof then Lexer.skip_until_fuel p fuel l.consume
    else l

/-- Embeds `Lexer::skip_until`. -/
def Lexer.skip_until (l : Lexer) (p : Nat → Bool) : Lexer :=
  Lexer.skip_until_fuel p (l.input.length - l.idx) l

/-- The usize upper bound on the 64-bit targets the crate is built for. -/
def usize_max : Nat := 2 ^ 64 - 1

/-- Embeds `String::from_utf8_lossy(..).parse::<usize>()` as called by the
length arm of `Lexer::next_token`.  The call site only ever passes a
(possibly empty) run of ASCII digit bytes, for which Rust's `parse` fails
exactly on the empty run and on overflow past `usize::MAX`.  (Rust's `parse`
would also accept a leading `+`, which the call site can never produce.) -/
def parse_usize (l : List Nat) : Option Nat :=
  if l = [] then none
  else if l.all is_ascii_digit then
    let n := l.foldl (fun acc c => acc * 10 + (c - 48)) 0
    if n ≤ usize_max then some n else none
  else none

/-- The slice of `&input[s..e]` (total: the source only forms in-bounds slices). -/
def sliceOf (b : List Nat) (s e : Nat) : List Nat := (b.drop s).take (e - s)

/-- The body of `Lexer::next_token` after its leading whitespace skip: the
match on the first significant byte, arm for arm in source order. -/
def Lexer.next_token_core (l : Lexer) : Token × Lexer :=
  let start := l.idx
  if l.current_char == 43 && l.next_char == 108 then
    let l1 := l.consume.consume
    let dstart := l1.idx
    let l2 := l1.skip_until is_ascii_digit
    let dend := l2.idx
    let number_slice := sliceOf l2.input dstart dend
    match parse_usize number_slice with
    | some number => (Token.new (TokenType.Len number) none, l2)
    | none => (Token.new TokenType.Illegal (some number_slice), l2)
  else if is_ident_start l.current_char then
    let l1 := l.skip_until is_ident_char
    let endIdx := l1.idx
    let l2 := l1.consume
    let sl := sliceOf l2.input start endIdx
    (Token.new (TokenType.from_bytes sl) (some sl), l2)
  else if l.current_char == 59 then
    (Token.new TokenType.Semicolon none, l.consume)
  else if l.current_char == 35 then
    let l1 := l.consume
    let payload := l1.input.drop l1.idx
    (Token.new TokenType.Binary (some payload), { l1 with idx := l1.input.length })
  else if l.current_char == 0 then
    (Token.new TokenType.Eof none, l)
  else
    let istart := l.idx
    let l1 := l.skip_until (fun ch => !is_ascii_whitespace ch && ch != 0)
    let iend := l1.idx
    (Token.new TokenType.Illegal (some (sliceOf l1.input istart iend)), l1)

/-- Embeds `Lexer::next_token`: skip ASCII whitespace, then classify. -/
def Lexer.next_token (l : Lexer) : Token × Lexer :=
  (l.skip_until is_ascii_whitespace).next_token_core

/-- Embeds the `Command` enum of src/parser/mod.rs. -/
inductive Command where
  | Message (message : List Nat) (len : Nat)
  | Error (message : Option (List Nat))
  | Publisher (queue_name : List Nat)
  | Subscriber (queue_name : List Nat) (group_name : List Nat)
  | Ok (len : Nat)
  deriving DecidableEq

/-- Embeds the `ParseError` struct of src/parser/parse_error.rs. -/
structure ParseError where
  message : String
  deriving DecidableEq

/-- Embeds `ParseError::new`. -/
def ParseError.new (message : String) : ParseError := ⟨message⟩

/-- Embeds `ParseResult` of src/parser/parse_error.rs. -/
abbrev ParseResult := Except ParseError (List Command)

/-- Embeds the `Parser` struct: lexer plus the 2-token lookahead window. -/
structure Parser where
  lexer : Lexer
  current_tok : Token
  next_tok : Token
  deriving DecidableEq

/-- Embeds `Parser::new`: pull two tokens at construction. -/
def Parser.new (lexer : Lexer) : Parser :=
  let r1 := lexer.next_token
  let r2 := r1.2.next_token
  ⟨r2.2, r1.1, r2.1⟩

/-- Embeds `Parser::consume`: current ← next, next ← freshly scanned. -/
def Parser.consume (p : Parser) : Parser :=
  let r := p.lexer.next_token
  ⟨r.2, p.next_tok, r.1⟩

/-- Embeds `Parser::current_token_is` (note: `==` there is the
discriminant-only `TokenType` equality). -/
def Parser.current_token_is (p : Parser) (current_token : TokenType) : Bool :=
  TokenType.peq p.current_tok.token_type current_token

/-- Embeds `Parser::expected_token`: compare the lookahead's kind
(shape-only for `Len`); on match advance, otherwise report without
advancing. -/
def Parser.expected_token (p : Parser) (token_type : TokenType) :
    Except ParseError Parser :=
  if TokenType.peq p.next_tok.token_type token_type then Except.ok p.consume
  else
    Except.error (ParseError.new
      ("expected " ++ token_type.display ++ " but got " ++ p.next_tok.display))

/-- Embeds `Parser::expected_token_in`: the source loops over the candidate
kinds and consumes on the first match; since `consume` does not depend on
which candidate matched, that is `List.any` followed by one `consume`. -/
def Parser.expected_token_in (p : Parser) (tokens_types : List TokenType) :
    Except ParseError Parser :=
  if tokens_types.any (fun token_type => TokenType.peq p.next_tok.token_type token_type) then
    Except.ok p.consume
  else
    Except.error (ParseError.new
      ("expected in " ++ debugList tokens_types ++ " but got " ++
        p.next_tok.token_type.debugStr))

/-- Embeds `Parser::parse_message`.  The `?` operator of the source is the
explicit early-return match on `Except`; the `.unwrap()` of the source is
`Option.getD []`, whose `none` branch is proved unreachable (claim C9). -/
def Parser.parse_message (p : Parser) : Except ParseError (Command × Parser) :=
  match p.expected_token (TokenType.Len 0) with
  | Except.error e => Except.error e
  | Except.ok p =>
    let len := match p.current_tok.token_type with
      | TokenType.Len len => len
      | _ => 0
    match p.expected_token_in [TokenType.Binary] with
    | Except.error e => Except.error e
    | Except.ok p =>
      let message := p.current_tok.value.getD []
      Except.ok (Command.Message message len, p.consume)

/-- Embeds `Parser::parse_error_message`: optional `Binary` lookahead, then
an unconditional `consume`. -/
def Parser.parse_error_message (p : Parser) : Except ParseError (Command × Parser) :=
  match p.expected_token TokenType.Binary with
  | Except.ok p1 => Except.ok (Command.Error p1.current_tok.value, p1.consume)
  | Except.error _ => Except.ok (Command.Error none, p.consume)

/-- Embeds `Parser::parse_message_with_len`. -/
def Parser.parse_message_with_len (p : Parser) (len : Nat) :
    Except ParseError (Command × Parser) :=
  match p.expected_token TokenType.Binary with
  | Except.error e => Except.error e
  | Except.ok p =>
    let message := p.current_tok.value.getD []
    Except.ok (Command.Message message len, p.consume)

/-- Embeds `Parser::parse_publisher`. -/
def Parser.parse_publisher (p : Parser) : Except ParseError (Command × Parser) :=
  match p.expected_token TokenType.Name with
  | Except.error e => Except.error e
  | Except.ok p =>
    let queue_name := p.current_tok.value.getD []
    Except.ok (Command.Publisher queue_name, p.consume)

/-- Embeds `Parser::parse_subscriber`. -/
def Parser.parse_subscriber (p : Parser) : Except ParseError (Command × Parser) :=
  match p.expected_token TokenType.Name with
  | Except.error e => Except.error e
  | Except.ok p =>
    let queue_name := p.current_tok.value.getD []
    match p.expected_token TokenType.With with
    | Except.error e => Except.error e
    | Except.ok p =>
      match p.expected_token TokenType.Group with
      | Except.error e => Except.error e
      | Except.ok p =>
        match p.expected_token TokenType.Name with
        | Except.error e => Except.error e
        | Except.ok p =>
          let group_name := p.current_tok.value.getD []
          Except.ok (Command.Subscriber queue_name group_name, p.consume)

/-- Embeds `Parser::parse_ok`: a length shape, then literally end-of-input. -/
def Parser.parse_ok (p : Parser) : Except ParseError (Command × Parser) :=
  match p.expected_token (TokenType.Len 0) with
  | Except.error e => Except.error e
  | Except.ok p =>
    let size := match p.current_tok.token_type with
      | TokenType.Len size => size
      | _ => 0
    match p.expected_token TokenType.Eof with
    | Except.error e => Except.error e
    | Except.ok p => Except.ok (Command.Ok size, p.consume)

/-- The per-statement dispatch of `Parser::parse_commands` (the `match
current_token` block), extracted as a function, arm for arm in source
order. -/
def Parser.dispatch (p : Parser) : Except ParseError (Command × Parser) :=
  match p.current_tok.token_type with
  | TokenType.Message => p.parse_message
  | TokenType.Publisher => p.parse_publisher
  | TokenType.Subscribe => p.parse_subscriber
  | TokenType.Ok => p.parse_ok
  | TokenType.Len len => p.parse_message_with_len len
  | TokenType.Error => p.parse_error_message
  | _ =>
    Except.error (ParseError.new
      ("miss expression, expression cannot start with \x27" ++
        (match p.current_tok.value with
         | some value => bytesToString value
         | none => bytesToString (strBytes "any")) ++
        "\x27, only start with \x27message\x27, \x27publisher\x27, \x27subscribe\x27 or \x27+lx\x27"))

/-- Loop measure for `Parser::parse_commands`: unread bytes of the buffer
plus the non-`Eof` tokens still in the lookahead window. -/
def Parser.tokens_left (p : Parser) : Nat :=
  (p.lexer.input.length - p.lexer.idx) +
    (if p.current_tok.token_type = TokenType.Eof then 0 else 1) +
    (if p.next_tok.token_type = TokenType.Eof then 0 else 1)

/-- Fuelled unrolling of the `while !current_token_is(Eof)` loop of
`Parser::parse_commands`; the `commands` accumulator of the source becomes
the `command :: commands` cons on return.  `Parser.parse_commands`
instantiates the fuel with `Parser.tokens_left`, which is proved sufficient
below (`Parser.parse_commands_eq` recovers the loop equation). -/
def Parser.parse_commands_fuel : Nat → Parser → ParseResult
  | 0, _ => Except.ok []
  | fuel + 1, p =>
    if p.current_token_is TokenType.Eof then Except.ok []
    else if p.current_token_is TokenType.Semicolon then
      if p.consume.current_token_is TokenType.Eof then Except.ok []
      else
        match p.consume.dispatch with
        | Except.error e => Except.error e
        | Except.ok (command, p2) =>
          match Parser.parse_commands_fuel fuel p2 with
          | Except.error e => Except.error e
          | Except.ok commands => Except.ok (command :: commands)
    else
      match p.dispatch with
      | Except.error e => Except.error e
      | Except.ok (command, p2) =>
        match Parser.parse_commands_fuel fuel p2 with
        | Except.error e => Except.error e
        | Except.ok commands => Except.ok (command :: commands)

/-- Embeds `Parser::parse_commands`. -/
def Parser.parse_commands (p : Parser) : ParseResult :=
  Parser.parse_commands_fuel p.tokens_left p

/-- Embeds the crate entry point `parse`. -/
def parse (input : List Nat) : ParseResult :=
  (Parser.new (Lexer.new input)).parse_commands

/-- True when a parse result is the success variant. -/
def isOkC (r : ParseResult) : Bool :=
  match r with
  | Except.ok _ => true
  | Except.error _ => false

/-- Safety predicate for claim C9: a token of kind `Name` or `Binary` must
carry a payload (so the parser's `.unwrap()` on it cannot panic). -/
def value_present_ok (t : Token) : Bool :=
  if t.token_type = TokenType.Name ∨ t.token_type = TokenType.Binary then
    t.value.isSome
  else true

/-- Decidable equality on parse results (used only to state concrete
evaluations; errors compare by message). -/
instance instDecEqExcept {ε α : Type} [DecidableEq ε] [DecidableEq α] :
    DecidableEq (Except ε α) := fun a b =>
  match a, b with
  | Except.ok x, Except.ok y =>
    if h : x = y then isTrue (by rw [h]) else
      isFalse (by intro hh; cases hh; exact h rfl)
  | Except.error e, Except.error f =>
    if h : e = f then isTrue (by rw [h]) else
      isFalse (by intro hh; cases hh; exact h rfl)
  | Except.ok _, Except.error _ => isFalse (by intro h; cases h)
  | Except.error _, Except.ok _ => isFalse (by intro h; cases h)

/-! ### Lemmas about the lexer loops -/

theorem Lexer.current_char_pos (l : Lexer) (h : l.current_char ≠ 0) :
    l.idx < l.input.length := by
  by_contra h2
  push_neg at h2
  exact h (List.getD_eq_default _ _ h2)

theorem Lexer.cond_false_of_out (l : Lexer) (h : l.input.length ≤ l.idx)
    (p : Nat → Bool) : (p l.current_char && !l.is_eof) = false := by
  have hc : l.current_char = 0 := List.getD_eq_default _ _ h
  simp [Lexer.is_eof, hc]

theorem Lexer.cond_true_lt {l : Lexer} {p : Nat → Bool}
    (h : (p l.current_char && !l.is_eof) = true) : l.idx < l.input.length := by
  apply Lexer.current_char_pos
  intro hc
  simp [Lexer.is_eof, hc] at h

theorem Lexer.skip_until_fuel_input (p : Nat → Bool) :
    ∀ (fuel : Nat) (l : Lexer), (Lexer.skip_until_fuel p fuel l).input = l.input := by
  intro fuel
  induction fuel with
  | zero => intro l; rfl
  | succ n ih =>
    intro l
    rw [Lexer.skip_until_fuel]
    by_cases h : (p l.current_char && !l.is_eof) = true
    · rw [if_pos h]
      simpa [Lexer.consume] using ih l.consume
    · rw [if_neg h]

theorem Lexer.skip_until_fuel_idx_le (p : Nat → Bool) :
    ∀ (fuel : Nat) (l : Lexer), l.idx ≤ (Lexer.skip_until_fuel p fuel l).idx := by
  intro fuel
  induction fuel with
  | zero => intro l; exact Nat.le_refl _
  | succ n ih =>
    intro l
    rw [Lexer.skip_until_fuel]
    by_cases h : (p l.current_char && !l.is_eof) = true
    · rw [if_pos h]
      have h1 := ih l.consume
      have h2 : l.consume.idx = l.idx + 1 := rfl
      omega
    · rw [if_neg h]

theorem Lexer.skip_until_fuel_congr (p : Nat → Bool) :
    ∀ (f1 f2 : Nat) (l : Lexer), l.input.length - l.idx ≤ f1 →
      l.input.length - l.idx ≤ f2 →
      Lexer.skip_until_fuel p f1 l = Lexer.skip_until_fuel p f2 l := by
  intro f1
  induction f1 with
  | zero =>
    intro f2 l h1 _
    have hc := Lexer.cond_false_of_out l (by omega) p
    cases f2 with
    | zero => rfl
    | succ g => simp [Lexer.skip_until_fuel, hc]
  | succ n ih =>
    intro f2 l h1 h2
    cases f2 with
    | zero =>
      have hc := Lexer.cond_false_of_out l (by omega) p
      simp [Lexer.skip_until_fuel, hc]
    | succ g =>
      by_cases hc : (p l.current_char && !l.is_eof) = true
      · have hlt := Lexer.cond_true_lt hc
        have hrec := ih g l.consume
          (by simp only [Lexer.consume]; omega)
          (by simp only [Lexer.consume]; omega)
        simp only [Lexer.skip_until_fuel, if_pos hc]
        exact hrec
      · simp only [Lexer.skip_until_fuel, if_neg hc]

theorem Lexer.skip_until_eq (l : Lexer) (p : Nat → Bool) :
    l.skip_until p =
      if p l.current_char && !l.is_eof then l.consume.skip_until p else l := by
  unfold Lexer.skip_until
  by_cases hc : (p l.current_char && !l.is_eof) = true
  · have hlt := Lexer.cond_true_lt hc
    rw [if_pos hc]
    obtain ⟨m, hm⟩ : ∃ m, l.input.length - l.idx = m + 1 :=
      ⟨l.input.length - l.idx - 1, by omega⟩
    rw [hm, Lexer.skip_until_fuel, if_pos hc]
    apply Lexer.skip_until_fuel_congr
    · simp only [Lexer.consume]; omega
    · simp only [Lexer.consume]; omega
  · rw [if_neg hc]
    cases hL : l.input.length - l.idx with
    | zero => rfl
    | succ m => simp only [Lexer.skip_until_fuel, if_neg hc]

theorem Lexer.skip_until_input (l : Lexer) (p : Nat → Bool) :
    (l.skip_until p).input = l.input :=
  Lexer.skip_until_fuel_input p _ l

theorem Lexer.skip_until_idx_le (l : Lexer) (p : Nat → Bool) :
    l.idx ≤ (l.skip_until p).idx :=
  Lexer.skip_until_fuel_idx_le p _ l

theorem Lexer.skip_until_stop (l : Lexer) (p : Nat → Bool)
    (h : p l.current_char = false ∨ l.current_char = 0) : l.skip_until p = l := by
  rw [Lexer.skip_until_eq]
  have hc : (p l.current_char && !l.is_eof) = false := by
    rcases h with h | h
    · simp [h]
    · simp [Lexer.is_eof, h]
  rw [hc]
  rfl

theorem Lexer.skip_until_post (l : Lexer) (p : Nat → Bool) :
    p ((l.skip_until p).current_char) = false ∨ (l.skip_until p).current_char = 0 := by
  unfold Lexer.skip_until
  generalize hf : l.input.length - l.idx = fuel
  have hf' : l.input.length - l.idx ≤ fuel := by omega
  clear hf
  induction fuel generalizing l with
  | zero =>
    right
    show l.current_char = 0
    exact List.getD_eq_default _ _ (by omega)
  | succ n ih =>
    rw [Lexer.skip_until_fuel]
    by_cases hc : (p l.current_char && !l.is_eof) = true
    · rw [if_pos hc]
      have hlt := Lexer.cond_true_lt hc
      exact ih l.consume (by simp only [Lexer.consume]; omega)
    · rw [if_neg hc]
      rw [Bool.and_eq_true, Bool.not_eq_true'] at hc
      by_cases hp : p l.current_char = true
      · right
        have hie : l.is_eof = true := by
          cases hie2 : l.is_eof
          · exact absurd ⟨hp, hie2⟩ hc
          · rfl
        simpa [Lexer.is_eof] using hie
      · left
        exact Bool.eq_false_iff.mpr hp

theorem Lexer.skip_until_run (p : Nat → Bool) :
    ∀ (m : Nat) (b : List Nat) (i : Nat),
      (∀ k, k < m → p (b.getD (i + k) 0) = true ∧ b.getD (i + k) 0 ≠ 0) →
      (p (b.getD (i + m) 0) = false ∨ b.getD (i + m) 0 = 0) →
      Lexer.skip_until ⟨b, i⟩ p = ⟨b, i + m⟩ := by
  intro m
  induction m with
  | zero =>
    intro b i _ hstop
    have h := Lexer.skip_until_stop ⟨b, i⟩ p (by simpa [Lexer.current_char] using hstop)
    simpa using h
  | succ n ih =>
    intro b i hrun hstop
    have h0 := hrun 0 (Nat.succ_pos n)
    simp only [Nat.add_zero] at h0
    rw [Lexer.skip_until_eq]
    have hcond : (p (Lexer.current_char ⟨b, i⟩) && !(Lexer.is_eof ⟨b, i⟩)) = true := by
      have hcc : Lexer.current_char ⟨b, i⟩ = b.getD i 0 := rfl
      have h1 : p (Lexer.current_char ⟨b, i⟩) = true := by rw [hcc]; exact h0.1
      have h2 : Lexer.is_eof ⟨b, i⟩ = false := by
        show (Lexer.current_char ⟨b, i⟩ == 0) = false
        rw [hcc]
        exact beq_eq_false_iff_ne.mpr h0.2
      rw [h1, h2]
      rfl
    rw [if_pos hcond]
    have hcons : Lexer.consume ⟨b, i⟩ = (⟨b, i + 1⟩ : Lexer) := rfl
    rw [hcons]
    have hrec := ih b (i + 1)
      (fun k hk => by
        have := hrun (k + 1) (by omega)
        have harr : i + (k + 1) = i + 1 + k := by omega
        rwa [harr] at this)
      (by
        have harr : i + (n + 1) = i + 1 + n := by omega
        rwa [harr] at hstop)
    rw [hrec]
    have : i + 1 + n = i + (n + 1) := by omega
    rw [this]

/-! ### Lemmas about token kinds and the keyword table -/

theorem TokenType.peq_len_any (n m : Nat) :
    TokenType.peq (TokenType.Len n) (TokenType.Len m) = true := rfl

theorem TokenType.peq_eof_iff (t : TokenType) :
    TokenType.peq t TokenType.Eof = true ↔ t = TokenType.Eof := by
  cases t <;> simp [TokenType.peq, TokenType.tag]

theorem TokenType.peq_semicolon_iff (t : TokenType) :
    TokenType.peq t TokenType.Semicolon = true ↔ t = TokenType.Semicolon := by
  cases t <;> simp [TokenType.peq, TokenType.tag]

theorem TokenType.peq_name_iff (t : TokenType) :
    TokenType.peq t TokenType.Name = true ↔ t = TokenType.Name := by
  cases t <;> simp [TokenType.peq, TokenType.tag]

theorem TokenType.peq_binary_iff (t : TokenType) :
    TokenType.peq t TokenType.Binary = true ↔ t = TokenType.Binary := by
  cases t <;> simp [TokenType.peq, TokenType.tag]

theorem TokenType.peq_len_iff (t : TokenType) (m : Nat) :
    TokenType.peq t (TokenType.Len m) = true ↔ ∃ k, t = TokenType.Len k := by
  cases t <;> simp [TokenType.peq, TokenType.tag]

theorem TokenType.from_bytes_ne_binary (s : List Nat) :
    TokenType.from_bytes s ≠ TokenType.Binary := by
  simp only [TokenType.from_bytes]
  split_ifs <;> simp

theorem TokenType.from_bytes_ne_eof (s : List Nat) :
    TokenType.from_bytes s ≠ TokenType.Eof := by
  simp only [TokenType.from_bytes]
  split_ifs <;> simp

/-! ### Branch analysis of `Lexer::next_token` -/

theorem is_ident_start_facts (c : Nat) (h : is_ident_start c = true) :
    is_ident_char c = true ∧ is_ascii_whitespace c = false ∧ c ≠ 43 ∧ c ≠ 0 := by
  simp only [is_ident_start, is_ident_char, is_ascii_alphanumeric, is_ascii_whitespace,
    Bool.or_eq_true, Bool.and_eq_true, decide_eq_true_eq, beq_iff_eq,
    Bool.or_eq_false_iff, beq_eq_false_iff_ne, ne_eq] at *
  omega

theorem is_ident_char_ne_zero (c : Nat) (h : is_ident_char c = true) : c ≠ 0 := by
  simp only [is_ident_char, is_ascii_alphanumeric, Bool.or_eq_true, Bool.and_eq_true,
    decide_eq_true_eq, beq_iff_eq] at h
  omega

theorem is_ascii_digit_ne_zero (c : Nat) (h : is_ascii_digit c = true) : c ≠ 0 := by
  simp only [is_ascii_digit, Bool.and_eq_true, decide_eq_true_eq] at h
  omega

theorem Lexer.next_token_core_input (l : Lexer) :
    l.next_token_core.2.input = l.input := by
  simp only [Lexer.next_token_core]
  split_ifs <;> first
    | (split <;> simp [Lexer.skip_until_input, Lexer.consume])
    | simp [Lexer.skip_until_input, Lexer.consume]

theorem Lexer.next_token_input (l : Lexer) : (l.next_token).2.input = l.input := by
  unfold Lexer.next_token
  rw [Lexer.next_token_core_input]
  exact Lexer.skip_until_input l _

theorem Lexer.skip_until_lt (l : Lexer) (p : Nat → Bool)
    (hp : p l.current_char = true) (h0 : l.current_char ≠ 0) :
    l.idx < (l.skip_until p).idx := by
  rw [Lexer.skip_until_eq]
  have hcond : (p l.current_char && !l.is_eof) = true := by
    have h2 : l.is_eof = false := by
      show (l.current_char == 0) = false
      exact beq_eq_false_iff_ne.mpr h0
    rw [hp, h2]
    rfl
  rw [if_pos hcond]
  have h1 := Lexer.skip_until_idx_le l.consume p
  have h2 : l.consume.idx = l.idx + 1 := rfl
  omega

theorem Lexer.next_token_core_idx_le (l : Lexer) : l.idx ≤ l.next_token_core.2.idx := by
  simp only [Lexer.next_token_core]
  split_ifs with h1 h2 h3 h4 h5
  · split
    all_goals
      dsimp only
      have hs := Lexer.skip_until_idx_le l.consume.consume is_ascii_digit
      have hc : l.consume.consume.idx = l.idx + 2 := rfl
      omega
  · dsimp only
    have hs := Lexer.skip_until_idx_le l is_ident_char
    have hc : (l.skip_until is_ident_char).consume.idx = (l.skip_until is_ident_char).idx + 1 := rfl
    omega
  · dsimp only
    have hc : l.consume.idx = l.idx + 1 := rfl
    omega
  · dsimp only
    have hne : l.current_char ≠ 0 := by
      intro h0
      rw [h0] at h4
      simp at h4
    have hlt := Lexer.current_char_pos l hne
    have hc : l.consume.input = l.input := rfl
    rw [hc]
    omega
  · exact Nat.le_refl _
  · dsimp only
    exact Lexer.skip_until_idx_le l _

theorem Lexer.next_token_core_zero (l : Lexer) (h : l.current_char = 0) :
    l.next_token_core = (Token.new TokenType.Eof none, l) := by
  simp only [Lexer.next_token_core, h]
  norm_num [is_ident_start]

theorem Lexer.next_token_core_ne_eof (l : Lexer)
    (h : l.next_token_core.1.token_type ≠ TokenType.Eof) : l.current_char ≠ 0 := by
  intro h0
  rw [Lexer.next_token_core_zero l h0] at h
  exact h rfl

theorem Lexer.next_token_core_progress (l : Lexer) (h0 : l.current_char ≠ 0)
    (hw : is_ascii_whitespace l.current_char = false) :
    l.idx < l.next_token_core.2.idx := by
  simp only [Lexer.next_token_core]
  split_ifs with h1 h2 h3 h4 h5
  · split
    all_goals
      dsimp only
      have hs := Lexer.skip_until_idx_le l.consume.consume is_ascii_digit
      have hc : l.consume.consume.idx = l.idx + 2 := rfl
      omega
  · dsimp only
    have hs := Lexer.skip_until_idx_le l is_ident_char
    have hc : (l.skip_until is_ident_char).consume.idx = (l.skip_until is_ident_char).idx + 1 := rfl
    omega
  · dsimp only
    have hc : l.consume.idx = l.idx + 1 := rfl
    omega
  · dsimp only
    have hlt := Lexer.current_char_pos l h0
    have hc : l.consume.input = l.input := rfl
    rw [hc]
    omega
  · exact absurd h5 (by simpa using h0)
  · dsimp only
    apply Lexer.skip_until_lt
    · simp [hw, h0]
    · exact h0

theorem Lexer.next_token_idx_le (l : Lexer) : l.idx ≤ (l.next_token).2.idx := by
  unfold Lexer.next_token
  have h1 := Lexer.skip_until_idx_le l is_ascii_whitespace
  have h2 := Lexer.next_token_core_idx_le (l.skip_until is_ascii_whitespace)
  omega

theorem Lexer.next_token_progress (l : Lexer)
    (h : (l.next_token).1.token_type ≠ TokenType.Eof) : l.idx < (l.next_token).2.idx := by
  unfold Lexer.next_token at h ⊢
  have h1 := Lexer.skip_until_idx_le l is_ascii_whitespace
  have h0 := Lexer.next_token_core_ne_eof _ h
  have hw : is_ascii_whitespace (l.skip_until is_ascii_whitespace).current_char = false := by
    rcases Lexer.skip_until_post l is_ascii_whitespace with hp | hp
    · exact hp
    · exact absurd hp h0
  have h2 := Lexer.next_token_core_progress _ h0 hw
  omega

theorem Lexer.next_token_remaining (l : Lexer)
    (h : (l.next_token).1.token_type ≠ TokenType.Eof) :
    l.input.length - (l.next_token).2.idx < l.input.length - l.idx := by
  have h1 := Lexer.next_token_progress l h
  unfold Lexer.next_token at h ⊢
  have h2 := Lexer.skip_until_idx_le l is_ascii_whitespace
  have h0 := Lexer.next_token_core_ne_eof _ h
  have h3 := Lexer.current_char_pos _ h0
  have h4 : (l.skip_until is_ascii_whitespace).input = l.input :=
    Lexer.skip_until_input l _
  rw [h4] at h3
  unfold Lexer.next_token at h1
  omega

theorem Lexer.next_token_core_binary (l : Lexer)
    (h : l.next_token_core.1.token_type = TokenType.Binary) :
    l.current_char = 35 ∧
      l.next_token_core =
        (Token.new TokenType.Binary (some (l.input.drop (l.idx + 1))),
          { l with idx := l.input.length }) := by
  simp only [Lexer.next_token_core] at h ⊢
  split_ifs at h ⊢ with h1 h2 h3 h4 h5
  · split at h
    · exact absurd h (by simp [Token.new])
    · exact absurd h (by simp [Token.new])
  · exact absurd h (TokenType.from_bytes_ne_binary _)
  · exact absurd h (by simp [Token.new])
  · refine ⟨by simpa using h4, ?_⟩
    rfl
  · exact absurd h (by simp [Token.new])
  · exact absurd h (by simp [Token.new])

theorem Lexer.next_token_core_value_present (l : Lexer) :
    value_present_ok l.next_token_core.1 = true := by
  simp only [Lexer.next_token_core]
  split_ifs with h1 h2 h3 h4 h5
  · split <;> simp [value_present_ok, Token.new]
  · simp [value_present_ok, Token.new]
  · simp [value_present_ok, Token.new]
  · simp [value_present_ok, Token.new]
  · simp [value_present_ok, Token.new]
  · simp [value_present_ok, Token.new]

theorem Lexer.next_token_value_present (l : Lexer) :
    value_present_ok (l.next_token).1 = true :=
  Lexer.next_token_core_value_present _

/-! ### Measure lemmas for the parser loop -/

theorem Parser.expected_token_ok {p : Parser} {tt : TokenType} {p2 : Parser}
    (h : p.expected_token tt = Except.ok p2) :
    TokenType.peq p.next_tok.token_type tt = true ∧ p2 = p.consume := by
  unfold Parser.expected_token at h
  split_ifs at h with hc
  injection h with h2
  exact ⟨hc, h2.symm⟩

theorem Parser.expected_token_in_ok {p : Parser} {tts : List TokenType} {p2 : Parser}
    (h : p.expected_token_in tts = Except.ok p2) : p2 = p.consume := by
  unfold Parser.expected_token_in at h
  split_ifs at h with hc
  injection h with h2
  exact h2.symm

theorem Parser.consume_tokens_le (p : Parser) : p.consume.tokens_left ≤ p.tokens_left := by
  unfold Parser.consume Parser.tokens_left
  dsimp only
  have hin : (p.lexer.next_token).2.input = p.lexer.input := Lexer.next_token_input _
  rw [hin]
  by_cases ht : (p.lexer.next_token).1.token_type = TokenType.Eof
  · have hle := Lexer.next_token_idx_le p.lexer
    rw [if_pos ht]
    omega
  · have hrem := Lexer.next_token_remaining p.lexer ht
    rw [if_neg ht]
    omega

theorem Parser.consume_tokens_lt (p : Parser)
    (h : p.current_tok.token_type ≠ TokenType.Eof) :
    p.consume.tokens_left < p.tokens_left := by
  unfold Parser.consume Parser.tokens_left
  dsimp only
  have hin : (p.lexer.next_token).2.input = p.lexer.input := Lexer.next_token_input _
  rw [hin, if_neg h]
  by_cases ht : (p.lexer.next_token).1.token_type = TokenType.Eof
  · have hle := Lexer.next_token_idx_le p.lexer
    rw [if_pos ht]
    omega
  · have hrem := Lexer.next_token_remaining p.lexer ht
    rw [if_neg ht]
    omega

theorem Parser.parse_message_ok_state {p : Parser} {c : Command} {p2 : Parser}
    (h : p.parse_message = Except.ok (c, p2)) : p2 = p.consume.consume.consume := by
  unfold Parser.parse_message at h
  cases h1 : p.expected_token (TokenType.Len 0) with
  | error e => rw [h1] at h; exact Except.noConfusion h
  | ok q =>
    rw [h1] at h
    dsimp only at h
    cases h2 : q.expected_token_in [TokenType.Binary] with
    | error e => rw [h2] at h; exact Except.noConfusion h
    | ok r =>
      rw [h2] at h
      dsimp only at h
      injection h with h3
      injection h3 with h4 h5
      have hq := (Parser.expected_token_ok h1).2
      have hr := Parser.expected_token_in_ok h2
      rw [← h5, hr, hq]

theorem Parser.parse_message_with_len_ok_state {p : Parser} {len : Nat} {c : Command}
    {p2 : Parser} (h : p.parse_message_with_len len = Except.ok (c, p2)) :
    p2 = p.consume.consume := by
  unfold Parser.parse_message_with_len at h
  cases h1 : p.expected_token TokenType.Binary with
  | error e => rw [h1] at h; exact Except.noConfusion h
  | ok q =>
    rw [h1] at h
    dsimp only at h
    injection h with h3
    injection h3 with h4 h5
    rw [← h5, (Parser.expected_token_ok h1).2]

theorem Parser.parse_publisher_ok_state {p : Parser} {c : Command} {p2 : Parser}
    (h : p.parse_publisher = Except.ok (c, p2)) : p2 = p.consume.consume := by
  unfold Parser.parse_publisher at h
  cases h1 : p.expected_token TokenType.Name with
  | error e => rw [h1] at h; exact Except.noConfusion h
  | ok q =>
    rw [h1] at h
    dsimp only at h
    injection h with h3
    injection h3 with h4 h5
    rw [← h5, (Parser.expected_token_ok h1).2]

theorem Parser.parse_subscriber_ok_state {p : Parser} {c : Command} {p2 : Parser}
    (h : p.parse_subscriber = Except.ok (c, p2)) :
    p2 = p.consume.consume.consume.consume.consume := by
  unfold Parser.parse_subscriber at h
  cases h1 : p.expected_token TokenType.Name with
  | error e => rw [h1] at h; exact Except.noConfusion h
  | ok q1 =>
    rw [h1] at h
    dsimp only at h
    cases h2 : q1.expected_token TokenType.With with
    | error e => rw [h2] at h; exact Except.noConfusion h
    | ok q2 =>
      rw [h2] at h
      dsimp only at h
      cases h3 : q2.expected_token TokenType.Group with
      | error e => rw [h3] at h; exact Except.noConfusion h
      | ok q3 =>
        rw [h3] at h
        dsimp only at h
        cases h4 : q3.expected_token TokenType.Name with
        | error e => rw [h4] at h; exact Except.noConfusion h
        | ok q4 =>
          rw [h4] at h
          dsimp only at h
          injection h with h5
          injection h5 with h6 h7
          rw [← h7, (Parser.expected_token_ok h4).2, (Parser.expected_token_ok h3).2,
            (Parser.expected_token_ok h2).2, (Parser.expected_token_ok h1).2]

theorem Parser.parse_ok_ok_state {p : Parser} {c : Command} {p2 : Parser}
    (h : p.parse_ok = Except.ok (c, p2)) : p2 = p.consume.consume.consume := by
  unfold Parser.parse_ok at h
  cases h1 : p.expected_token (TokenType.Len 0) with
  | error e => rw [h1] at h; exact Except.noConfusion h
  | ok q =>
    rw [h1] at h
    dsimp only at h
    cases h2 : q.expected_token TokenType.Eof with
    | error e => rw [h2] at h; exact Except.noConfusion h
    | ok r =>
      rw [h2] at h
      dsimp only at h
      injection h with h3
      injection h3 with h4 h5
      rw [← h5, (Parser.expected_token_ok h2).2, (Parser.expected_token_ok h1).2]

theorem Parser.parse_error_message_ok_state {p : Parser} {c : Command} {p2 : Parser}
    (h : p.parse_error_message = Except.ok (c, p2)) :
    p2 = p.consume.consume ∨ p2 = p.consume := by
  unfold Parser.parse_error_message at h
  cases h1 : p.expected_token TokenType.Binary with
  | error e =>
    rw [h1] at h
    dsimp only at h
    injection h with h3
    injection h3 with h4 h5
    exact Or.inr h5.symm
  | ok q =>
    rw [h1] at h
    dsimp only at h
    injection h with h3
    injection h3 with h4 h5
    left
    rw [← h5, (Parser.expected_token_ok h1).2]

theorem Parser.dispatch_ok_lt {p : Parser} {c : Command} {p2 : Parser}
    (h : p.dispatch = Except.ok (c, p2)) : p2.tokens_left < p.tokens_left := by
  unfold Parser.dispatch at h
  split at h
  · next heq =>
    have hne : p.current_tok.token_type ≠ TokenType.Eof := by rw [heq]; simp
    have hst := Parser.parse_message_ok_state h
    have h1 := Parser.consume_tokens_lt p hne
    have h2 := Parser.consume_tokens_le p.consume
    have h3 := Parser.consume_tokens_le p.consume.consume
    rw [hst]
    omega
  · next heq =>
    have hne : p.current_tok.token_type ≠ TokenType.Eof := by rw [heq]; simp
    have hst := Parser.parse_publisher_ok_state h
    have h1 := Parser.consume_tokens_lt p hne
    have h2 := Parser.consume_tokens_le p.consume
    rw [hst]
    omega
  · next heq =>
    have hne : p.current_tok.token_type ≠ TokenType.Eof := by rw [heq]; simp
    have hst := Parser.parse_subscriber_ok_state h
    have h1 := Parser.consume_tokens_lt p hne
    have h2 := Parser.consume_tokens_le p.consume
    have h3 := Parser.consume_tokens_le p.consume.consume
    have h4 := Parser.consume_tokens_le p.consume.consume.consume
    have h5 := Parser.consume_tokens_le p.consume.consume.consume.consume
    rw [hst]
    omega
  · next heq =>
    have hne : p.current_tok.token_type ≠ TokenType.Eof := by rw [heq]; simp
    have hst := Parser.parse_ok_ok_state h
    have h1 := Parser.consume_tokens_lt p hne
    have h2 := Parser.consume_tokens_le p.consume
    have h3 := Parser.consume_tokens_le p.consume.consume
    rw [hst]
    omega
  · next len heq =>
    have hne : p.current_tok.token_type ≠ TokenType.Eof := by rw [heq]; simp
    have hst := Parser.parse_message_with_len_ok_state h
    have h1 := Parser.consume_tokens_lt p hne
    have h2 := Parser.consume_tokens_le p.consume
    rw [hst]
    omega
  · next heq =>
    have hne : p.current_tok.token_type ≠ TokenType.Eof := by rw [heq]; simp
    have h1 := Parser.consume_tokens_lt p hne
    have h2 := Parser.consume_tokens_le p.consume
    rcases Parser.parse_error_message_ok_state h with hst | hst <;> rw [hst] <;> omega
  · exact Except.noConfusion h

theorem Parser.tokens_left_zero {p : Parser} (h : p.tokens_left = 0) :
    p.current_tok.token_type = TokenType.Eof := by
  unfold Parser.tokens_left at h
  by_cases hc : p.current_tok.token_type = TokenType.Eof
  · exact hc
  · rw [if_neg hc] at h
    omega

theorem Parser.current_token_is_eof_of (p : Parser)
    (h : p.current_tok.token_type = TokenType.Eof) :
    p.current_token_is TokenType.Eof = true := by
  unfold Parser.current_token_is
  rw [h]
  rfl

theorem Parser.current_ne_eof_of_not (p : Parser)
    (h : ¬p.current_token_is TokenType.Eof = true) :
    p.current_tok.token_type ≠ TokenType.Eof := fun hh =>
  h (Parser.current_token_is_eof_of p hh)

theorem Parser.current_semicolon_of (p : Parser)
    (h : p.current_token_is TokenType.Semicolon = true) :
    p.current_tok.token_type = TokenType.Semicolon :=
  (TokenType.peq_semicolon_iff _).mp h

theorem Parser.parse_commands_fuel_congr :
    ∀ (f1 f2 : Nat) (p : Parser), p.tokens_left ≤ f1 → p.tokens_left ≤ f2 →
      Parser.parse_commands_fuel f1 p = Parser.parse_commands_fuel f2 p := by
  intro f1
  induction f1 with
  | zero =>
    intro f2 p h1 _
    have hcb := Parser.current_token_is_eof_of p (Parser.tokens_left_zero (Nat.le_zero.mp h1))
    cases f2 with
    | zero => rfl
    | succ g => simp [Parser.parse_commands_fuel, hcb]
  | succ n ih =>
    intro f2 p h1 h2
    cases f2 with
    | zero =>
      have hcb := Parser.current_token_is_eof_of p (Parser.tokens_left_zero (Nat.le_zero.mp h2))
      simp [Parser.parse_commands_fuel, hcb]
    | succ g =>
      simp only [Parser.parse_commands_fuel]
      by_cases he : p.current_token_is TokenType.Eof = true
      · rw [if_pos he, if_pos he]
      · rw [if_neg he, if_neg he]
        by_cases hs : p.current_token_is TokenType.Semicolon = true
        · rw [if_pos hs, if_pos hs]
          by_cases he2 : p.consume.current_token_is TokenType.Eof = true
          · rw [if_pos he2, if_pos he2]
          · rw [if_neg he2, if_neg he2]
            cases hd : p.consume.dispatch with
            | error e => simp only [hd]
            | ok cp =>
              obtain ⟨c, p2⟩ := cp
              have hlt1 : p.consume.tokens_left < p.tokens_left :=
                Parser.consume_tokens_lt p (by rw [Parser.current_semicolon_of p hs]; simp)
              have hlt2 : p2.tokens_left < p.consume.tokens_left :=
                Parser.dispatch_ok_lt hd
              have hrec := ih g p2 (by omega) (by omega)
              simp only [hd, hrec]
        · rw [if_neg hs, if_neg hs]
          cases hd : p.dispatch with
          | error e => simp only [hd]
          | ok cp =>
            obtain ⟨c, p2⟩ := cp
            have hlt2 : p2.tokens_left < p.tokens_left := Parser.dispatch_ok_lt hd
            have hrec := ih g p2 (by omega) (by omega)
            simp only [hd, hrec]

/-- The loop equation of `Parser::parse_commands`: one iteration of the
source's `while` loop, with the recursive occurrences back at the standard
fuel. -/
theorem Parser.parse_commands_eq (p : Parser) :
    p.parse_commands =
      if p.current_token_is TokenType.Eof then Except.ok []
      else if p.current_token_is TokenType.Semicolon then
        if p.consume.current_token_is TokenType.Eof then Except.ok []
        else
          match p.consume.dispatch with
          | Except.error e => Except.error e
          | Except.ok (command, p2) =>
            match p2.parse_commands with
            | Except.error e => Except.error e
            | Except.ok commands => Except.ok (command :: commands)
      else
        match p.dispatch with
        | Except.error e => Except.error e
        | Except.ok (command, p2) =>
          match p2.parse_commands with
          | Except.error e => Except.error e
          | Except.ok commands => Except.ok (command :: commands) := by
  unfold Parser.parse_commands
  cases hf : p.tokens_left with
  | zero =>
    have hcb := Parser.current_token_is_eof_of p (Parser.tokens_left_zero hf)
    simp [Parser.parse_commands_fuel, hcb]
  | succ m =>
    simp only [Parser.parse_commands_fuel]
    by_cases he : p.current_token_is TokenType.Eof = true
    · rw [if_pos he, if_pos he]
    · rw [if_neg he, if_neg he]
      by_cases hs : p.current_token_is TokenType.Semicolon = true
      · rw [if_pos hs, if_pos hs]
        by_cases he2 : p.consume.current_token_is TokenType.Eof = true
        · rw [if_pos he2, if_pos he2]
        · rw [if_neg he2, if_neg he2]
          cases hd : p.consume.dispatch with
          | error e => simp only [hd]
          | ok cp =>
            obtain ⟨c, p2⟩ := cp
            have hlt1 : p.consume.tokens_left < p.tokens_left :=
              Parser.consume_tokens_lt p (by rw [Parser.current_semicolon_of p hs]; simp)
            have hlt2 : p2.tokens_left < p.consume.tokens_left :=
              Parser.dispatch_ok_lt hd
            have hrec := Parser.parse_commands_fuel_congr m p2.tokens_left p2
              (by omega) (Nat.le_refl _)
            simp only [hd, hrec]
      · rw [if_neg hs, if_neg hs]
        cases hd : p.dispatch with
        | error e => simp only [hd]
        | ok cp =>
          obtain ⟨c, p2⟩ := cp
          have hlt2 : p2.tokens_left < p.tokens_left := Parser.dispatch_ok_lt hd
          have hrec := Parser.parse_commands_fuel_congr m p2.tokens_left p2
            (by omega) (Nat.le_refl _)
          simp only [hd, hrec]

/-! ### Claim theorems -/

/-- C1, counterexample.  The claim predicts that for `error X ...` with X not
a Binary token, the result is `Error{message: None}` followed by parsing from
the token after X.  For the buffer `error foo`, X is `Name("foo")` and the
token after X is `Eof`, so the claim predicts exactly
`Ok [Error{message: None}]`; the code instead fails the whole parse (`foo` IS
re-dispatched as a statement head and matches no statement). -/
theorem c1_counterexample :
    parse (strBytes "error foo") ≠ Except.ok [Command.Error none] := by decide

/-- C1, amended.  When the optional `Binary` lookahead of an `error`
statement fails, the parser advances exactly ONE token: it moves past the
leading `error` token, emits `Error{message: None}`, and the token that was
being examined becomes the new current token — it is re-dispatched as the
next statement head rather than skipped.  Parsing `error X ...` therefore
yields `Error{message: None}` prepended to the result of parsing resumed AT
X (not after X). -/
theorem c1_error_advances_one (p : Parser)
    (hcur : p.current_tok.token_type = TokenType.Error)
    (hnb : TokenType.peq p.next_tok.token_type TokenType.Binary = false) :
    p.parse_commands =
      Except.map (List.cons (Command.Error none)) p.consume.parse_commands := by
  have hd : p.parse_error_message = Except.ok (Command.Error none, p.consume) := by
    unfold Parser.parse_error_message
    cases hexp : p.expected_token TokenType.Binary with
    | ok q =>
      have h1 := (Parser.expected_token_ok hexp).1
      rw [hnb] at h1
      exact Bool.noConfusion h1
    | error e => rfl
  have hd2 : p.dispatch = Except.ok (Command.Error none, p.consume) := by
    unfold Parser.dispatch
    rw [hcur]
    exact hd
  rw [Parser.parse_commands_eq]
  have he' : ¬p.current_token_is TokenType.Eof = true := by
    unfold Parser.current_token_is
    rw [hcur]
    simp [TokenType.peq, TokenType.tag]
  have hs' : ¬p.current_token_is TokenType.Semicolon = true := by
    unfold Parser.current_token_is
    rw [hcur]
    simp [TokenType.peq, TokenType.tag]
  rw [if_neg he', if_neg hs']
  simp only [hd2]
  cases hpc : p.consume.parse_commands <;> simp [hpc, Except.map]

/-- C1, witness: the amended theorem applied to the parser state built from
the buffer `error foo`. -/
theorem c1_witness :
    (Parser.new (Lexer.new (strBytes "error foo"))).parse_commands =
      Except.map (List.cons (Command.Error none))
        (Parser.new (Lexer.new (strBytes "error foo"))).consume.parse_commands :=
  c1_error_advances_one _ (by decide) (by decide)

/-- C2, counterexample.  The claim predicts that lexing `foo;` yields
`Name("foo")` and that the immediately following `next_token` call returns a
`Semicolon` token.  In the code, the identifier arm performs an extra
`consume()` after the maximal run, so the `;` is swallowed and the next call
returns `Eof`, not `Semicolon`. -/
theorem c2_counterexample :
    ((Lexer.new (strBytes "foo;")).next_token).1 =
        Token.new TokenType.Name (some (strBytes "foo")) ∧
      (((Lexer.new (strBytes "foo;")).next_token).2.next_token).1.token_type =
        TokenType.Eof ∧
      TokenType.Eof ≠ TokenType.Semicolon := by decide

/-- C2, amended.  For an identifier run (first byte an ASCII letter or `_`,
then a maximal run of ASCII letters, digits, `_`, `.`), the token carries
exactly the maximal run as payload and is classified through the keyword
table, but the cursor ends one byte PAST the run: the single byte
immediately after the identifier (for instance a `;`) is consumed together
with it and is never tokenized. -/
theorem c2_ident_swallows_next_byte (b : List Nat) (i m : Nat)
    (hstart : is_ident_start (b.getD i 0) = true)
    (hrun : ∀ k, k < m → is_ident_char (b.getD (i + k) 0) = true)
    (hstop : is_ident_char (b.getD (i + m) 0) = false) :
    Lexer.next_token ⟨b, i⟩ =
      (Token.new (TokenType.from_bytes (sliceOf b i (i + m)))
        (some (sliceOf b i (i + m))), ⟨b, i + m + 1⟩) := by
  obtain ⟨hic, hws, hne43, hne0⟩ := is_ident_start_facts _ hstart
  have hcc : Lexer.current_char ⟨b, i⟩ = b.getD i 0 := rfl
  unfold Lexer.next_token
  have hskip : Lexer.skip_until ⟨b, i⟩ is_ascii_whitespace = ⟨b, i⟩ :=
    Lexer.skip_until_stop _ _ (Or.inl (by rw [hcc]; exact hws))
  rw [hskip]
  simp only [Lexer.next_token_core]
  have hrun2 : Lexer.skip_until ⟨b, i⟩ is_ident_char = ⟨b, i + m⟩ :=
    Lexer.skip_until_run is_ident_char m b i
      (fun k hk => ⟨hrun k hk, is_ident_char_ne_zero _ (hrun k hk)⟩)
      (Or.inl hstop)
  split_ifs with h1 h2
  · exfalso
    rw [Bool.and_eq_true] at h1
    exact hne43 (beq_iff_eq.mp h1.1)
  · rw [hrun2]
    rfl
  all_goals exact absurd hstart h2

/-- C2, witness: the amended theorem applied to the buffer `foo;` at cursor
0 with run length 3; the resulting cursor is 4, one past the semicolon. -/
theorem c2_witness :
    Lexer.next_token ⟨strBytes "foo;", 0⟩ =
      (Token.new (TokenType.from_bytes (sliceOf (strBytes "foo;") 0 3))
        (some (sliceOf (strBytes "foo;") 0 3)), ⟨strBytes "foo;", 4⟩) := by
  have h := c2_ident_swallows_next_byte (strBytes "foo;") 0 3
    (by decide) (by decide) (by decide)
  simpa using h

/-- C3, counterexample.  The claim asserts that under the full structural
equality used by the tests, `Len(a)` and `Len(b)` tokens with distinct
numbers compare unequal.  But the tests compare tokens through the derived
`PartialEq` of `Token`, which delegates to the hand-written discriminant-only
`PartialEq` of `TokenType`: two `Len` tokens with numbers 1 and 2 compare
EQUAL. -/
theorem c3_counterexample :
    Token.peq (Token.new (TokenType.Len 1) none) (Token.new (TokenType.Len 2) none) = true ∧
      TokenType.peq (TokenType.Len 1) (TokenType.Len 2) = true ∧
      (1 : Nat) ≠ 2 := by decide

/-- C3, amended.  The crate has exactly one equality on token kinds, the
discriminant-only `PartialEq` of `TokenType`, and the derived `Token`
equality used by the tests inherits it: for ALL numbers a and b, `Len(a)`
and `Len(b)` compare equal (as kinds and as whole tokens); no full-value
equality on the `Len` payload exists anywhere in the crate. -/
theorem c3_len_equality_shape_only (a b : Nat) (v : Option (List Nat)) :
    TokenType.peq (TokenType.Len a) (TokenType.Len b) = true ∧
      Token.peq (Token.new (TokenType.Len a) v) (Token.new (TokenType.Len b) v) = true := by
  refine ⟨rfl, ?_⟩
  simp [Token.peq, Token.new, TokenType.peq, TokenType.tag]

/-- C4.  An `ok` statement must be the last thing in its parse call:
`parse("ok +l400")` is the single command `Ok{len: 400}`, and whenever the
parser state has `ok` as the current token, a `Len` lookahead, and the next
token the lexer will produce is not `Eof`, the whole `parse_commands` call
fails (`parse("ok +l400 publisher x")` is the concrete instance). -/
theorem c4_ok_requires_eof :
    parse (strBytes "ok +l400") = Except.ok [Command.Ok 400] ∧
      isOkC (parse (strBytes "ok +l400 publisher x")) = false ∧
      ∀ (p : Parser) (n : Nat),
        p.current_tok.token_type = TokenType.Ok →
        p.next_tok.token_type = TokenType.Len n →
        (p.lexer.next_token).1.token_type ≠ TokenType.Eof →
        ∃ e, p.parse_commands = Except.error e := by
  refine ⟨by decide, by decide, ?_⟩
  intro p n hcur hnext hthird
  have hpo : ∃ e, p.parse_ok = Except.error e := by
    unfold Parser.parse_ok
    have hc : TokenType.peq p.next_tok.token_type (TokenType.Len 0) = true := by
      rw [hnext]
      exact TokenType.peq_len_any n 0
    have hexp : p.expected_token (TokenType.Len 0) = Except.ok p.consume := by
      unfold Parser.expected_token
      rw [if_pos hc]
    rw [hexp]
    dsimp only
    cases hexp2 : p.consume.expected_token TokenType.Eof with
    | error e => exact ⟨e, rfl⟩
    | ok q =>
      have h1 := (Parser.expected_token_ok hexp2).1
      exact absurd ((TokenType.peq_eof_iff _).mp h1) hthird
  obtain ⟨e, hpo⟩ := hpo
  have hd : p.dispatch = Except.error e := by
    unfold Parser.dispatch
    rw [hcur]
    exact hpo
  refine ⟨e, ?_⟩
  rw [Parser.parse_commands_eq]
  have he' : ¬p.current_token_is TokenType.Eof = true := by
    unfold Parser.current_token_is
    rw [hcur]
    simp [TokenType.peq, TokenType.tag]
  have hs' : ¬p.current_token_is TokenType.Semicolon = true := by
    unfold Parser.current_token_is
    rw [hcur]
    simp [TokenType.peq, TokenType.tag]
  rw [if_neg he', if_neg hs']
  simp only [hd]

/-- C4, witness: the general part applied to the parser state built from
`ok +l400 publisher x` (lookahead `Len 400`, third token `publisher`). -/
theorem c4_witness :
    ∃ e, (Parser.new (Lexer.new (strBytes "ok +l400 publisher x"))).parse_commands =
      Except.error e :=
  c4_ok_requires_eof.2.2 _ 400 (by decide) (by decide) (by decide)

/-- C5.  Whenever `next_token` returns a `Binary` token, from any buffer and
any cursor position: the byte at the (whitespace-skipped) scan position is
`#`, the payload is every byte of the buffer strictly after that `#`, the
cursor is left at end-of-buffer, and the next `next_token` call returns
`Eof`. -/
theorem c5_binary_consumes_rest (l : Lexer)
    (h : (l.next_token).1.token_type = TokenType.Binary) :
    (l.next_token).2.idx = l.input.length ∧
      ((l.next_token).2.next_token).1.token_type = TokenType.Eof ∧
      (l.next_token).1.value =
        some (l.input.drop ((l.skip_until is_ascii_whitespace).idx + 1)) ∧
      l.input.getD (l.skip_until is_ascii_whitespace).idx 0 = 35 := by
  have hin : (l.skip_until is_ascii_whitespace).input = l.input :=
    Lexer.skip_until_input l _
  unfold Lexer.next_token at h ⊢
  obtain ⟨hc35, hcore⟩ :=
    Lexer.next_token_core_binary (l.skip_until is_ascii_whitespace) h
  refine ⟨?_, ?_, ?_, ?_⟩
  · rw [hcore]
    dsimp only
    rw [hin]
  · rw [hcore]
    dsimp only
    have hcur0 : Lexer.current_char
        { l.skip_until is_ascii_whitespace with
            idx := (l.skip_until is_ascii_whitespace).input.length } = 0 :=
      List.getD_eq_default _ _ (Nat.le_refl _)
    have hstop := Lexer.skip_until_stop
      { l.skip_until is_ascii_whitespace with
          idx := (l.skip_until is_ascii_whitespace).input.length }
      is_ascii_whitespace (Or.inr hcur0)
    rw [hstop, Lexer.next_token_core_zero _ hcur0]
    rfl
  · rw [hcore]
    dsimp only
    rw [hin]
    rfl
  · rw [← hin]
    exact hc35

/-- C5, witness: the theorem applied to the buffer `#ab` at cursor 0. -/
theorem c5_witness :
    ((Lexer.new (strBytes "#ab")).next_token).2.idx =
        (Lexer.new (strBytes "#ab")).input.length ∧
      (((Lexer.new (strBytes "#ab")).next_token).2.next_token).1.token_type =
        TokenType.Eof ∧
      ((Lexer.new (strBytes "#ab")).next_token).1.value =
        some ((Lexer.new (strBytes "#ab")).input.drop
          (((Lexer.new (strBytes "#ab")).skip_until is_ascii_whitespace).idx + 1)) ∧
      (Lexer.new (strBytes "#ab")).input.getD
        ((Lexer.new (strBytes "#ab")).skip_until is_ascii_whitespace).idx 0 = 35 :=
  c5_binary_consumes_rest (Lexer.new (strBytes "#ab")) (by decide)

/-- C6.  Parsing is fail-fast and all-or-nothing: when a statement head
dispatch succeeds but the rest of the parse fails, the whole call returns
exactly that error and the already-built command is discarded; concretely,
`parse("publisher foo; 123")` returns an error and no `Publisher` command
(the success type `Except` carries no commands in its error variant). -/
theorem c6_fail_fast :
    isOkC (parse (strBytes "publisher foo; 123")) = false ∧
      ∀ (p : Parser) (c : Command) (p2 : Parser),
        p.current_token_is TokenType.Eof = false →
        p.current_token_is TokenType.Semicolon = false →
        p.dispatch = Except.ok (c, p2) →
        isOkC p2.parse_commands = false →
        p.parse_commands = p2.parse_commands := by
  refine ⟨by decide, ?_⟩
  intro p c p2 he hs hd hrest
  rw [Parser.parse_commands_eq]
  rw [if_neg (by rw [he]; simp), if_neg (by rw [hs]; simp)]
  simp only [hd]
  cases hpc : p2.parse_commands with
  | error e => simp only [hpc]
  | ok cs =>
    rw [hpc] at hrest
    exact absurd hrest (by simp [isOkC])

/-- C6, witness: the buffer `publisher foo; 123` — the `Publisher`
dispatch succeeds, the rest fails on the `Illegal` token `123`, and the
whole call returns the error of the rest. -/
theorem c6_witness :
    (Parser.new (Lexer.new (strBytes "publisher foo; 123"))).parse_commands =
      (Parser.new (Lexer.new (strBytes "publisher foo; 123"))).consume.consume.parse_commands :=
  c6_fail_fast.2 _ (Command.Publisher (strBytes "foo"))
    ((Parser.new (Lexer.new (strBytes "publisher foo; 123"))).consume.consume)
    (by decide) (by decide) (by decide) (by decide)

/-- C7.  After `+l`, the tokenizer consumes the maximal ASCII-digit run; if
that run parses as an unsigned integer n the token is `Len(n)` with no
payload, and if it fails to parse (empty run, or overflow past usize) the
token is `Illegal` carrying the raw consumed slice.  The concrete conjunct
is the empty-run case `+la` from the claim (payload is the empty slice). -/
theorem c7_len_literal :
    (∀ (b : List Nat) (i m : Nat),
      b.getD i 0 = 43 →
      b.getD (i + 1) 0 = 108 →
      (∀ k, k < m → is_ascii_digit (b.getD (i + 2 + k) 0) = true) →
      is_ascii_digit (b.getD (i + 2 + m) 0) = false →
      (∀ n, parse_usize (sliceOf b (i + 2) (i + 2 + m)) = some n →
        Lexer.next_token ⟨b, i⟩ = (Token.new (TokenType.Len n) none, ⟨b, i + 2 + m⟩)) ∧
      (parse_usize (sliceOf b (i + 2) (i + 2 + m)) = none →
        Lexer.next_token ⟨b, i⟩ =
          (Token.new TokenType.Illegal (some (sliceOf b (i + 2) (i + 2 + m))),
            ⟨b, i + 2 + m⟩))) ∧
    Lexer.next_token (Lexer.new (strBytes "+la")) =
      (Token.new TokenType.Illegal (some []), ⟨strBytes "+la", 2⟩) := by
  constructor
  · intro b i m h43 h108 hrun hstop
    have hcc : Lexer.current_char ⟨b, i⟩ = b.getD i 0 := rfl
    have hnc : Lexer.next_char ⟨b, i⟩ = b.getD (i + 1) 0 := rfl
    unfold Lexer.next_token
    have hskip : Lexer.skip_until ⟨b, i⟩ is_ascii_whitespace = ⟨b, i⟩ :=
      Lexer.skip_until_stop _ _ (Or.inl (by rw [hcc, h43]; decide))
    rw [hskip]
    simp only [Lexer.next_token_core]
    have hcond : (Lexer.current_char ⟨b, i⟩ == 43 && Lexer.next_char ⟨b, i⟩ == 108) = true := by
      rw [hcc, hnc, h43, h108]
      decide
    rw [if_pos hcond]
    have hcons2 : Lexer.consume (Lexer.consume ⟨b, i⟩) = (⟨b, i + 2⟩ : Lexer) := rfl
    rw [hcons2]
    have hdig : Lexer.skip_until ⟨b, i + 2⟩ is_ascii_digit = ⟨b, i + 2 + m⟩ :=
      Lexer.skip_until_run is_ascii_digit m b (i + 2)
        (fun k hk => ⟨hrun k hk, is_ascii_digit_ne_zero _ (hrun k hk)⟩)
        (Or.inl hstop)
    rw [hdig]
    dsimp only
    constructor
    · intro n hn
      rw [hn]
    · intro hn
      rw [hn]
  · decide

/-- C7, witness: the general part applied to `+l250` (run of three digits
parsing to 250). -/
theorem c7_witness :
    Lexer.next_token ⟨strBytes "+l250", 0⟩ =
      (Token.new (TokenType.Len 250) none, ⟨strBytes "+l250", 5⟩) := by
  have h := (c7_len_literal.1 (strBytes "+l250") 0 3
    (by decide) (by decide) (by decide) (by decide)).1 250 (by decide)
  simpa using h

/-- C8.  The `len` field of a parsed `Message` equals the number carried by
the `Len` token that preceded the payload — in both the `message +lN #...`
form and the `+lN #...` shorthand — and the parser never compares it to the
actual byte count of the payload: the two concrete parses succeed although
the payload lengths (5 and 3) differ from the declared 19 and 8. -/
theorem c8_len_never_cross_checked :
    parse (strBytes "message +l19 #baz\";") =
        Except.ok [Command.Message (strBytes "baz\";") 19] ∧
      parse (strBytes "+l8 #foo") = Except.ok [Command.Message (strBytes "foo") 8] ∧
      (strBytes "baz\";").length ≠ 19 ∧
      (strBytes "foo").length ≠ 8 ∧
      (∀ (p : Parser) (n : Nat) (c : Command) (p2 : Parser),
        p.next_tok.token_type = TokenType.Len n →
        p.parse_message = Except.ok (c, p2) →
        ∃ msg, c = Command.Message msg n) ∧
      (∀ (p : Parser) (len : Nat) (c : Command) (p2 : Parser),
        p.parse_message_with_len len = Except.ok (c, p2) →
        ∃ msg, c = Command.Message msg len) := by
  refine ⟨by decide, by decide, by decide, by decide, ?_, ?_⟩
  · intro p n c p2 hnext h
    unfold Parser.parse_message at h
    cases h1 : p.expected_token (TokenType.Len 0) with
    | error e => rw [h1] at h; exact Except.noConfusion h
    | ok q =>
      rw [h1] at h
      dsimp only at h
      have hq : q = p.consume := (Parser.expected_token_ok h1).2
      have hqt : q.current_tok.token_type = TokenType.Len n := by
        rw [hq]
        exact hnext
      rw [hqt] at h
      dsimp only at h
      cases h2 : q.expected_token_in [TokenType.Binary] with
      | error e => rw [h2] at h; exact Except.noConfusion h
      | ok r =>
        rw [h2] at h
        dsimp only at h
        injection h with h3
        injection h3 with h4 h5
        exact ⟨_, h4.symm⟩
  · intro p len c p2 h
    unfold Parser.parse_message_with_len at h
    cases h1 : p.expected_token TokenType.Binary with
    | error e => rw [h1] at h; exact Except.noConfusion h
    | ok q =>
      rw [h1] at h
      dsimp only at h
      injection h with h3
      injection h3 with h4 h5
      exact ⟨_, h4.symm⟩

/-- C8, witness: the `message +l19 #baz";` state, whose lookahead is
`Len 19`. -/
theorem c8_witness :
    ∃ msg, Command.Message (strBytes "baz\";") 19 = Command.Message msg 19 :=
  c8_len_never_cross_checked.2.2.2.2.1
    (Parser.new (Lexer.new (strBytes "message +l19 #baz\";"))) 19
    (Command.Message (strBytes "baz\";") 19)
    ((Parser.new (Lexer.new (strBytes "message +l19 #baz\";"))).consume.consume.consume)
    (by decide) (by decide)

/-- C9.  Every token the lexer produces that is of kind `Name` or `Binary`
carries a `some` payload; both lookahead slots of a freshly built parser and
the slot refilled by every `consume` hold lexer-produced tokens, so after a
successful `expected_token` on kind `Name` or `Binary` the current token's
payload is present — the `.unwrap()` calls of `parse_publisher`,
`parse_subscriber`, `parse_message` and `parse_message_with_len` can never
panic. -/
theorem c9_no_panic :
    (∀ (l : Lexer), value_present_ok (l.next_token).1 = true) ∧
      (∀ (lx : Lexer), value_present_ok (Parser.new lx).current_tok = true ∧
        value_present_ok (Parser.new lx).next_tok = true) ∧
      (∀ (p : Parser), value_present_ok p.consume.next_tok = true) ∧
      (∀ (p : Parser) (tt : TokenType) (p2 : Parser),
        value_present_ok p.next_tok = true →
        (tt = TokenType.Name ∨ tt = TokenType.Binary) →
        p.expected_token tt = Except.ok p2 →
        p2.current_tok.value.isSome = true) := by
  refine ⟨Lexer.next_token_value_present, ?_, ?_, ?_⟩
  · intro lx
    exact ⟨Lexer.next_token_value_present lx, Lexer.next_token_value_present _⟩
  · intro p
    exact Lexer.next_token_value_present _
  · intro p tt p2 hval htt hok
    obtain ⟨hpeq, hp2⟩ := Parser.expected_token_ok hok
    have hcur : p2.current_tok = p.next_tok := by rw [hp2]; rfl
    rw [hcur]
    unfold value_present_ok at hval
    rcases htt with h | h
    · rw [h] at hpeq
      have hn := (TokenType.peq_name_iff _).mp hpeq
      rw [if_pos (Or.inl hn)] at hval
      exact hval
    · rw [h] at hpeq
      have hn := (TokenType.peq_binary_iff _).mp hpeq
      rw [if_pos (Or.inr hn)] at hval
      exact hval

/-- C9, witness: the `publisher foo` state — after `expected_token(Name)`
succeeds, the matched token's payload is present. -/
theorem c9_witness :
    (Parser.new (Lexer.new (strBytes "publisher foo"))).consume.current_tok.value.isSome = true :=
  c9_no_panic.2.2.2 (Parser.new (Lexer.new (strBytes "publisher foo"))) TokenType.Name
    ((Parser.new (Lexer.new (strBytes "publisher foo"))).consume)
    (by decide) (Or.inl rfl) (by decide)

/-- C10.  Lexing makes progress: a `next_token` call that does not return
`Eof` strictly advances the cursor (and the cursor never moves backwards),
and each parser `consume` on a non-`Eof` current token strictly decreases
the `tokens_left` measure — the quantity on which the `parse_commands` loop
terminates, making `parse` a total function of the buffer (all definitions
here are structurally total; `Parser.parse_commands_eq` recovers the
source's loop equation). -/
theorem c10_progress :
    (∀ (l : Lexer), (l.next_token).1.token_type ≠ TokenType.Eof →
        l.idx < (l.next_token).2.idx) ∧
      (∀ (l : Lexer), l.idx ≤ (l.next_token).2.idx) ∧
      (∀ (p : Parser), p.current_tok.token_type ≠ TokenType.Eof →
        p.consume.tokens_left < p.tokens_left) :=
  ⟨Lexer.next_token_progress, Lexer.next_token_idx_le, Parser.consume_tokens_lt⟩

/-- C10, witness: progress on the buffer `foo` (cursor 0 to 4) and the
corresponding parser measure decrease. -/
theorem c10_witness :
    (Lexer.new (strBytes "foo")).idx < ((Lexer.new (strBytes "foo")).next_token).2.idx ∧
      (Parser.new (Lexer.new (strBytes "foo"))).consume.tokens_left <
        (Parser.new (Lexer.new (strBytes "foo"))).tokens_left :=
  ⟨c10_progress.1 _ (by decide), c10_progress.2.2 _ (by decide)⟩
